import Mathlib

/-!
Verification development for the abooker feed-building pipeline
(src/abooker.py).  The Python source is shallowly embedded: pure helpers
become Lean functions, Python dictionaries become ordered association
lists, Python truthiness of optional strings is modelled explicitly, and
the partial comparison of heterogeneous tuples (which raises TypeError in
Python when an int chunk meets a str chunk) is modelled by comparison
functions returning Option Ordering, where none stands for the raised
TypeError.  Filesystem enumeration, YAML parsing and byte-level reads are
external collaborators; their observable outcomes are inputs of the model.
-/

/-- Python truthiness of an optional string: None and the empty string are
falsy, every other string is truthy. -/
def truthy : Option String → Bool
  | none => false
  | some s => s != ""

/-- Python expression a or b for optional strings: the left operand if it
is truthy, otherwise the right operand. -/
def pyOr (a b : Option String) : Option String :=
  if truthy a then a else b

/-- A settings document: an insertion-ordered mapping from string keys to
string values, modelling the YAML dictionaries the tool reads and writes. -/
def Settings := List (String × String)

instance : DecidableEq Settings := by
  unfold Settings; infer_instance

/-- Dictionary lookup, settings.get(k): the value at the first matching
key, if any. -/
def sget (s : Settings) (k : String) : Option String :=
  match s with
  | [] => none
  | (k', v) :: t => if k' == k then some v else sget t k

/-- Dictionary assignment settings[k] = v: replace the value at an
existing key in place, else append the new pair. -/
def sset (s : Settings) (k v : String) : Settings :=
  match s with
  | [] => [(k, v)]
  | (k', v') :: t => if k' == k then (k, v) :: t else (k', v') :: sset t k v

/-- The guarded write-back pattern of main, for example lines 196-197 of
src/abooker.py: if url: settings[k] = url.  A falsy value (None or the
empty string) leaves the mapping untouched. -/
def setIf (s : Settings) (k : String) (v : Option String) : Settings :=
  match v with
  | none => s
  | some x => if x == "" then s else sset s k x

/-- One token of a natural-order key, from the tokenizer inside
filename_key: a maximal digit run becomes an int, any other maximal run
stays a str (src/abooker.py line 147). -/
inductive Chunk
  | num : Nat → Chunk
  | str : List Char → Chunk
deriving DecidableEq, Repr

/-- Maximal runs of digits and of non-digits of a character list,
modelling re.compile(r'(\D+|\d+)').split with empty pieces dropped. -/
def splitRuns : List Char → List (List Char)
  | [] => []
  | c :: cs =>
    match splitRuns cs with
    | [] => [[c]]
    | [] :: rs => [c] :: [] :: rs
    | (d :: ds) :: rs =>
      if c.isDigit == d.isDigit then (c :: d :: ds) :: rs
      else [c] :: (d :: ds) :: rs

/-- Decimal value of a digit run, modelling Python int(chunk). -/
def digitsToNat (cs : List Char) : Nat :=
  cs.foldl (fun n c => 10 * n + (c.toNat - 48)) 0

/-- One run mapped to a key token: int(chunk) if chunk.isdigit() else
chunk (src/abooker.py line 147).  Python isdigit is false on the empty
string. -/
def chunkOf (r : List Char) : Chunk :=
  if !r.isEmpty && r.all (·.isDigit) then Chunk.num (digitsToNat r)
  else Chunk.str r

/-- The split helper inside filename_key: tokenize a name into int and
str chunks. -/
def pySplit (cs : List Char) : List Chunk :=
  (splitRuns cs).map chunkOf

/-- Stem and suffix of a file name, following pathlib: the suffix is the
part from the last dot onward, provided that dot is neither the first nor
the last character; otherwise the suffix is empty and the stem is the
whole name. -/
def splitExt (name : List Char) : List Char × List Char :=
  match name.reverse.findIdx? (· == '.') with
  | none => (name, [])
  | some j =>
    let i := name.length - 1 - j
    if 0 < i && i < name.length - 1 then (name.take i, name.drop i)
    else (name, [])

/-- A path relative to the book directory, pre-split into the names of
its parent directories and its final file name (mirroring
rel_path.parent.parts and rel_path.name of pathlib). -/
structure RelPath where
  dirs : List String
  name : String
deriving DecidableEq, Repr

/-- The stem of the file name of a relative path (rel_path.stem). -/
def stemOf (p : RelPath) : List Char := (splitExt p.name.data).1

/-- The suffix of the file name of a relative path (rel_path.suffix). -/
def suffixOf (p : RelPath) : List Char := (splitExt p.name.data).2

/-- A natural-order key: one token sequence per path segment, the last
segment being the split stem with the raw suffix appended. -/
def Key := List (List Chunk)

instance : DecidableEq Key := by
  unfold Key; infer_instance

/-- The order key of src/abooker.py lines 145-150: tuple of split(name)
for each parent part, then split(stem) with the suffix appended as one
raw str token. -/
def filename_key (p : RelPath) : Key :=
  p.dirs.map (fun d => pySplit d.data) ++
    [pySplit (stemOf p) ++ [Chunk.str (suffixOf p)]]

/-- Comparison of two characters by code point, as Python compares the
characters of strings. -/
def cmpCh (a b : Char) : Option Ordering :=
  some (compare a.toNat b.toNat)

/-- Lexicographic comparison of sequences under a partial element
comparison, modelling Python tuple and str comparison: scan for the first
non-equal position and return its verdict; none models the TypeError
Python raises when the deciding pair is not comparable (int versus str);
a strict prefix is smaller. -/
def lexCmpO (cmp : α → α → Option Ordering) : List α → List α → Option Ordering
  | [], [] => some Ordering.eq
  | [], _ :: _ => some Ordering.lt
  | _ :: _, [] => some Ordering.gt
  | a :: as, b :: bs =>
    match cmp a b with
    | some Ordering.eq => lexCmpO cmp as bs
    | r => r

/-- Comparison of two key tokens: ints by magnitude, strs by code points,
and an int against a str is not comparable (Python raises TypeError). -/
def cmpChunk : Chunk → Chunk → Option Ordering
  | Chunk.num a, Chunk.num b => some (compare a b)
  | Chunk.str a, Chunk.str b => lexCmpO cmpCh a b
  | _, _ => none

/-- Comparison of two path-segment token sequences. -/
def cmpSeg : List Chunk → List Chunk → Option Ordering :=
  lexCmpO cmpChunk

/-- Comparison of two order keys, exactly the comparison Python performs
on the tuples produced by filename_key. -/
def cmpKey : Key → Key → Option Ordering :=
  lexCmpO cmpSeg

/-- The path rendered as a string with slash separators, as str() of a
relative pathlib path. -/
def renderRel (p : RelPath) : String :=
  String.intercalate "/" (p.dirs ++ [p.name])

/-- The path rendered relative to the library root, that is with the book
directory name prepended: str(p.relative_to(path.parent)). -/
def renderLib (bookName : String) (p : RelPath) : String :=
  bookName ++ "/" ++ renderRel p

/-- Comparison of the (key, path) pairs that main sorts (src/abooker.py
lines 236-238): Python compares the keys first, and only on equal keys
falls through to the paths, which compare by their path strings; the
common absolute prefix of the book directory cancels, so the relative
renderings decide. -/
def cmpPair (x y : Key × RelPath) : Option Ordering :=
  match cmpKey x.1 y.1 with
  | some Ordering.eq => lexCmpO cmpCh (renderRel x.2).data (renderRel y.2).data
  | r => r

/-- Insertion into a sorted list under a partial comparison; none models
a raised TypeError aborting the sort. -/
def insertCmp (cmp : α → α → Option Ordering) (a : α) : List α → Option (List α)
  | [] => some [a]
  | b :: l =>
    match cmp a b with
    | none => none
    | some Ordering.lt => some (a :: b :: l)
    | some _ =>
      match insertCmp cmp a l with
      | none => none
      | some t => some (b :: t)

/-- Worker of the sort: fold the input into an accumulated sorted list. -/
def sortAux (cmp : α → α → Option Ordering) : List α → List α → Option (List α)
  | acc, [] => some acc
  | acc, a :: l =>
    match insertCmp cmp a acc with
    | none => none
    | some acc' => sortAux cmp acc' l

/-- Model of Python sorted() under a partial comparison: a stable
insertion sort that fails (as sorted raises TypeError) when it would have
to compare two incomparable elements. -/
def sortCmp (cmp : α → α → Option Ordering) (l : List α) : Option (List α) :=
  sortAux cmp [] l

/-- UTF-8 encoding of one character, byte values as naturals; urllib
quote operates on the UTF-8 encoding of its input. -/
def utf8Bytes (c : Char) : List Nat :=
  let n := c.toNat
  if n < 0x80 then [n]
  else if n < 0x800 then [0xC0 + n / 0x40, 0x80 + n % 0x40]
  else if n < 0x10000 then
    [0xE0 + n / 0x1000, 0x80 + (n / 0x40) % 0x40, 0x80 + n % 0x40]
  else
    [0xF0 + n / 0x40000, 0x80 + (n / 0x1000) % 0x40,
      0x80 + (n / 0x40) % 0x40, 0x80 + n % 0x40]

/-- A byte urllib quote leaves unescaped with the default safe set: ASCII
letters and digits, underscore, dot, hyphen, tilde, and the slash. -/
def isSafeByte (b : Nat) : Bool :=
  (65 ≤ b && b ≤ 90) || (97 ≤ b && b ≤ 122) || (48 ≤ b && b ≤ 57) ||
    b == 45 || b == 46 || b == 95 || b == 126 || b == 47

/-- Uppercase hexadecimal digit of a value below sixteen. -/
def hexDigit (n : Nat) : Char :=
  if n < 10 then Char.ofNat (48 + n) else Char.ofNat (55 + n)

/-- One byte rendered by urllib quote: kept verbatim when safe, else a
percent escape with two uppercase hexadecimal digits. -/
def quoteByte (b : Nat) : List Char :=
  if isSafeByte b then [Char.ofNat b]
  else ['%', hexDigit (b / 16), hexDigit (b % 16)]

/-- Model of urllib.parse.quote with its default safe characters. -/
def pyQuote (s : String) : String :=
  String.mk (((s.data.map utf8Bytes).flatten.map quoteByte).flatten)

/-- The string with trailing slashes removed, url.rstrip('/'). -/
def rstripSlash (s : String) : String :=
  String.mk ((s.data.reverse.dropWhile (· == '/')).reverse)

/-- The URL prefix Python builds with url and url.rstrip('/') or '': the
stripped base URL when the url is truthy, else the empty string, so that
a missing base URL degrades to root-relative paths. -/
def urlBase (u : Option String) : String :=
  if truthy u then rstripSlash (u.getD "") else ""

/-- Test image.startswith('http') from src/abooker.py line 221. -/
def startsHttp (s : String) : Bool :=
  List.isPrefixOf "http".data s.data

/-- The extension-to-MIME table media_types of src/abooker.py. -/
def media_types : List (String × String) :=
  [("aac", "audio/aac"), ("mp3", "audio/mpeg"), ("ogg", "audio/ogg"),
    ("wma", "audio/x-ms-wma"), ("wav", "audio/vnd.wave"), ("mp4", "audio/mp4")]

/-- Dictionary get on the MIME table, media_types.get(ext). -/
def mtLookup (e : String) : Option String :=
  (media_types.find? (fun kv => kv.1 == e)).map (fun kv => kv.2)

/-- One item dictionary handed to make_rss: built by main with only path,
rpath and url set, so the mime, title and duration slots that make_rss
reads with dict.get default to none. -/
structure Item where
  path : RelPath
  rpath : String
  url : String
  mime : Option String := none
  ititle : Option String := none
  duration : Option String := none
deriving DecidableEq, Repr

/-- An XML tree as built through xml.etree.ElementTree: an element with a
tag, attributes in insertion order and ordered children, or a text
payload (modelling the text slot of an element as a child). -/
inductive XNode
  | elem : String → List (String × String) → List XNode → XNode
  | text : String → XNode

/-- Lowercasing of ASCII letters, for ext.lower() on file extensions. -/
def asciiLower (s : String) : String :=
  String.mk (s.data.map (fun c =>
    if 65 ≤ c.toNat && c.toNat ≤ 90 then Char.ofNat (c.toNat + 32) else c))

/-- Python strip('.'): the string with leading and trailing dots
removed. -/
def stripDots (cs : List Char) : List Char :=
  ((cs.dropWhile (· == '.')).reverse.dropWhile (· == '.')).reverse

/-- The lowercased bare extension of an item, path.suffix.strip('.').lower()
from src/abooker.py line 90. -/
def extOf (it : Item) : String :=
  asciiLower (String.mk (stripDots (suffixOf it.path)))

/-- The MIME value make_rss settles on for an item:
item.get('mime') or media_types.get(ext). -/
def itemMime (it : Item) : Option String :=
  pyOr it.mime (mtLookup (extOf it))

/-- The title text of an item node: item.get('title') or path.name. -/
def itemTitleText (it : Item) : String :=
  match pyOr it.ititle (some it.path.name) with
  | some s => s
  | none => ""

/-- The attributes of an enclosure: the url, and the type exactly when
the MIME value is truthy. -/
def enclosureAttrs (it : Item) : List (String × String) :=
  [("url", it.url)] ++
    (if truthy (itemMime it) then [("type", (itemMime it).getD "")] else [])

/-- One item element of the channel, from src/abooker.py lines 97-101. -/
def itemNode (it : Item) : XNode :=
  XNode.elem "item" []
    ([XNode.elem "title" [] [XNode.text (itemTitleText it)],
      XNode.elem "enclosure" (enclosureAttrs it) []] ++
      (if truthy it.duration then
        [XNode.elem "itunes:duration" [] [XNode.text ((it.duration).getD "")]]
      else []))

/-- An optional simple channel field: one element with the text when the
value is truthy, no element at all otherwise. -/
def optNode (tag : String) (v : Option String) : List XNode :=
  if truthy v then [XNode.elem tag [] [XNode.text (v.getD "")]] else []

/-- The ordered children of the channel element, from src/abooker.py
lines 74-101: the optional feed-level fields in source order, then one
item element per item in sequence order. -/
def channelNodes (items : List Item)
    (title author description image lang link : Option String) : List XNode :=
  optNode "title" title ++ optNode "googleplay:author" author ++
    optNode "description" description ++
    (if truthy image then
      [XNode.elem "googleplay:image" [("href", image.getD "")] [],
        XNode.elem "image" [] [XNode.elem "url" [] [XNode.text (image.getD "")]]]
    else []) ++
    optNode "language" lang ++ optNode "link" link ++
    items.map itemNode

/-- The document tree built by make_rss (serialization is outside the
model). -/
def make_rss (items : List Item)
    (title author description image lang link : Option String) : XNode :=
  XNode.elem "rss"
    [("version", "2.0"),
      ("xmlns:googleplay", "http://www.google.com/schemas/play-podcasts/1.0"),
      ("xmlns:itunes", "http://www.itunes.com/dtds/podcast-1.0.dtd")]
    [XNode.elem "channel" [] (channelNodes items title author description image lang link)]

/-- Observable outcome of one info-file candidate of the description
loop (src/abooker.py lines 225-233).  ok carries the decoded text of a
candidate whose bytes were nonempty and whose encoding was detected;
skip is a candidate with empty bytes or no detected encoding, passed
over silently; err carries the message of an exception raised while
reading or decoding, reported and passed over. -/
inductive InfoCand
  | ok : String → InfoCand
  | skip : InfoCand
  | err : String → InfoCand
deriving DecidableEq, Repr

/-- The description fallback loop over the info-file candidates: the
decoded text of the first successful candidate together with the
diagnostics emitted on the way there. -/
def descrLoop : List InfoCand → Option String × List String
  | [] => (none, [])
  | InfoCand.ok t :: _ => (some t, [])
  | InfoCand.skip :: rest => descrLoop rest
  | InfoCand.err m :: rest => ((descrLoop rest).1, m :: (descrLoop rest).2)

/-- The text of the first successful candidate, if any. -/
def firstOkText : List InfoCand → Option String
  | [] => none
  | InfoCand.ok t :: _ => some t
  | _ :: rest => firstOkText rest

/-- Whether a candidate is a successful one. -/
def isOkCand : InfoCand → Bool
  | InfoCand.ok _ => true
  | _ => false

/-- The error message of a candidate, if it carries one. -/
def errMsgOf : InfoCand → Option String
  | InfoCand.err m => some m
  | _ => none

/-- The diagnostics the loop emits: the messages of the erroring
candidates encountered before the first successful one. -/
def errsBeforeOk (l : List InfoCand) : List String :=
  (l.takeWhile (fun c => !isOkCand c)).filterMap errMsgOf

/-- The CLI option values main receives; a string option not passed is
none, matching the click defaults of src/abooker.py lines 153-165 (rss
defaults to playlist.rss). -/
structure CliArgs where
  url : Option String := none
  rss : String := "playlist.rss"
  title : Option String := none
  author : Option String := none
  description : Option String := none
  image : Option String := none
  lang : Option String := none
  link : Option String := none
  no_local_settings : Bool := false
  save_local_settings : Bool := false
deriving Repr

/-- Observable filesystem and parser outcomes of one run.  bookName is
path.name; ancestors lists the settings document found in each ancestor
directory starting with path.parent (main only ever reads the first
entry); book is the settings document of the book directory; pics, infos
and media are the files discovered by iter_files for the image, info and
media masks, in their enumeration order, relative to the book
directory. -/
structure Env where
  bookName : String
  ancestors : List (Option Settings) := []
  book : Option Settings := none
  pics : List RelPath := []
  infos : List InfoCand := []
  media : List RelPath := []

/-- The library-level settings mapping main starts from (src/abooker.py
line 189): empty with no-local-settings, else the document of
path.parent, defaulting to empty. -/
def loadLocal (cli : CliArgs) (env : Env) : Settings :=
  if cli.no_local_settings then [] else ((env.ancestors.head?).getD none).getD []

/-- The book-level settings mapping (src/abooker.py line 190). -/
def bookDoc (env : Env) : Settings :=
  (env.book).getD []

/-- Resolved url, line 195: url = url or settings.get('url'). -/
def resolvedUrl (cli : CliArgs) (env : Env) : Option String :=
  pyOr cli.url (sget (loadLocal cli env) "url")

/-- Library settings after the url write-back, lines 196-197. -/
def settingsA (cli : CliArgs) (env : Env) : Settings :=
  setIf (loadLocal cli env) "url" (resolvedUrl cli env)

/-- Resolved lang, line 199. -/
def resolvedLang (cli : CliArgs) (env : Env) : Option String :=
  pyOr cli.lang (sget (settingsA cli env) "lang")

/-- Library settings after the lang write-back, lines 200-201: the
mapping that a persisting run saves as the local settings. -/
def settingsB (cli : CliArgs) (env : Env) : Settings :=
  setIf (settingsA cli env) "lang" (resolvedLang cli env)

/-- Resolved title before the directory-name fallback, line 203. -/
def resolvedTitle (cli : CliArgs) (env : Env) : Option String :=
  pyOr cli.title (sget (bookDoc env) "title")

/-- Book settings after the title write-back, lines 204-205. -/
def bookA (cli : CliArgs) (env : Env) : Settings :=
  setIf (bookDoc env) "title" (resolvedTitle cli env)

/-- Resolved author, line 207. -/
def resolvedAuthor (cli : CliArgs) (env : Env) : Option String :=
  pyOr cli.author (sget (bookA cli env) "author")

/-- Book settings after the author write-back, lines 208-209. -/
def bookB (cli : CliArgs) (env : Env) : Settings :=
  setIf (bookA cli env) "author" (resolvedAuthor cli env)

/-- Resolved description before the info-file fallback, line 211:
description or book_settings.get('description') or
book_settings.get('about'). -/
def resolvedDescr0 (cli : CliArgs) (env : Env) : Option String :=
  pyOr (pyOr cli.description (sget (bookB cli env) "description"))
    (sget (bookB cli env) "about")

/-- Book settings after the description write-back, lines 212-213: the
mapping saved as the book settings (the info-file fallback below never
flows back into it). -/
def bookC (cli : CliArgs) (env : Env) : Settings :=
  setIf (bookB cli env) "description" (resolvedDescr0 cli env)

/-- The image value before URL gluing, lines 215-218: the CLI value, or
when that is falsy the first enumerated image file rendered relative to
the library root. -/
def imageCandidate (cli : CliArgs) (env : Env) : Option String :=
  if truthy cli.image then cli.image
  else
    match env.pics with
    | [] => cli.image
    | p :: _ => some (renderLib env.bookName p)

/-- Resolved image, lines 215-222: a truthy candidate not starting with
http is glued to the base URL, a candidate starting with http is kept
unchanged. -/
def resolvedImage (cli : CliArgs) (env : Env) : Option String :=
  if truthy (imageCandidate cli env) then
    if startsHttp ((imageCandidate cli env).getD "") then imageCandidate cli env
    else some (urlBase (resolvedUrl cli env) ++ "/" ++ (imageCandidate cli env).getD "")
  else imageCandidate cli env

/-- Resolved description after the info-file fallback loop, lines
224-231: the loop runs only when the value so far is falsy, and leaves it
unchanged when every candidate fails. -/
def resolvedDescr (cli : CliArgs) (env : Env) : Option String :=
  if truthy (resolvedDescr0 cli env) then resolvedDescr0 cli env
  else
    match (descrLoop env.infos).1 with
    | some t => some t
    | none => resolvedDescr0 cli env

/-- Diagnostics of the description loop: empty when the loop is skipped. -/
def descrDiag (cli : CliArgs) (env : Env) : List String :=
  if truthy (resolvedDescr0 cli env) then [] else (descrLoop env.infos).2

/-- The feed title handed to make_rss, line 254: title or path.name. -/
def feedTitle (cli : CliArgs) (env : Env) : Option String :=
  pyOr (resolvedTitle cli env) (some env.bookName)

/-- The keyed file list of line 236: (filename_key(f, root=path), f) for
each discovered media file. -/
def keyedFiles (env : Env) : List (Key × RelPath) :=
  env.media.map (fun f => (filename_key f, f))

/-- One episode item of lines 239-244: rpath is the path relative to the
library root and the url joins the base URL with the percent-encoded
rpath. -/
def mkItem (base : String) (bookName : String) (p : RelPath) : Item :=
  { path := p, rpath := renderLib bookName p,
    url := base ++ "/" ++ pyQuote (renderLib bookName p) }

/-- Everything a run computes and writes: the resolved fields, the
ordered episode items, the feed document and its reported URL, and the
settings mappings as persisted. -/
structure MainOut where
  url : Option String
  lang : Option String
  author : Option String
  description : Option String
  descrLog : List String
  image : Option String
  feedTitleOut : Option String
  items : List Item
  doc : Option XNode
  rssUrl : Option String
  settingsOut : Settings
  bookOut : Settings
  localSaved : Option Settings

/-- The whole resolution pipeline of main (src/abooker.py lines 166-262)
on the observable outcomes of one run: none models the run dying with the
TypeError that sorted() raises on incomparable keys, in which case
nothing is written; otherwise the resolved fields, the sorted episode
items, the feed document (when the rss name is truthy) and the persisted
mappings, with the book settings always saved and the library settings
saved only behind the save flag. -/
def mainResolve (cli : CliArgs) (env : Env) : Option MainOut :=
  match sortCmp cmpPair (keyedFiles env) with
  | none => none
  | some srt =>
    let items := srt.map (fun kp => mkItem (urlBase (resolvedUrl cli env)) env.bookName kp.2)
    some
      { url := resolvedUrl cli env
        lang := resolvedLang cli env
        author := resolvedAuthor cli env
        description := resolvedDescr cli env
        descrLog := descrDiag cli env
        image := resolvedImage cli env
        feedTitleOut := feedTitle cli env
        items := items
        doc :=
          if cli.rss == "" then none
          else some (make_rss items (feedTitle cli env) (resolvedAuthor cli env)
            (resolvedDescr cli env) (resolvedImage cli env) (resolvedLang cli env) cli.link)
        rssUrl :=
          if cli.rss == "" then none
          else some (urlBase (resolvedUrl cli env) ++ "/" ++
            pyQuote (env.bookName ++ "/" ++ cli.rss))
        settingsOut := settingsB cli env
        bookOut := bookC cli env
        localSaved := if cli.save_local_settings then some (settingsB cli env) else none }

/-- Modelled from the spec (section 4.3), which describes a multi-level
cascade absent from the code: merge one overlay document into a base,
each present key of the overlay overwriting the base. -/
def smerge (base overlay : Settings) : Settings :=
  overlay.foldl (fun b kv => sset b kv.1 kv.2) base

/-- Modelled from the spec (section 4.3): walk the ancestor documents
and merge them outermost (most distant) first, so the nearest ancestor
wins; the code performs no such walk. -/
def specCascade (ancestors : List (Option Settings)) : Settings :=
  ancestors.reverse.foldl (fun acc lvl => smerge acc (lvl.getD [])) []

/-- Modelled from the spec (claim C5): the first discovered image file by
OrderKey; the code instead takes the first image in enumeration order. -/
def specFirstImageByKey (pics : List RelPath) : Option RelPath :=
  match sortCmp (fun a b => cmpKey (filename_key a) (filename_key b)) pics with
  | some (p :: _) => some p
  | _ => none

/-- The properties of a partial comparison that make the Python sort
behave: reflexivity as equality verdicts, antisymmetry through swap,
substitution of equal elements, and transitivity of strict verdicts.
Where the comparison is defined these make it a total preorder whose
equality verdicts are substitutive. -/
structure CmpGood {α : Type} (cmp : α → α → Option Ordering) : Prop where
  refl : ∀ a, cmp a a = some Ordering.eq
  swap : ∀ a b, cmp b a = (cmp a b).map Ordering.swap
  eql : ∀ a b, cmp a b = some Ordering.eq → ∀ c, cmp a c = cmp b c
  trans : ∀ a b c, cmp a b = some Ordering.lt → cmp b c = some Ordering.lt →
    cmp a c = some Ordering.lt

/-- The non-strict verdict of a partial comparison. -/
def leCmp {α : Type} (cmp : α → α → Option Ordering) (a b : α) : Prop :=
  cmp a b = some Ordering.lt ∨ cmp a b = some Ordering.eq

/-- Three media files in one directory, the running example of the
spec. -/
def tr1 : RelPath := { dirs := [], name := "track1.mp3" }

/-- Second running-example file. -/
def tr2 : RelPath := { dirs := [], name := "track2.mp3" }

/-- Third running-example file, whose digit run must order numerically. -/
def tr10 : RelPath := { dirs := [], name := "track10.mp3" }

/-- A run over the book directory Book whose media enumeration order is
given; everything else is absent. -/
def trackEnv (media : List RelPath) : Env :=
  { bookName := "Book", media := media }

/-- The relative paths of the episode items of a run, in feed order. -/
def rpathsOf (o : MainOut) : List String :=
  o.items.map (fun it => it.rpath)

/-- Concrete inputs for the C3 witness: library setting url A, CLI
override url B, persist flag set. -/
def urlCli : CliArgs := { url := some "B", save_local_settings := true }

/-- Environment for the C3 witness. -/
def urlEnv : Env := { bookName := "Book", ancestors := [some [("url", "A")]] }

/-- Environment for the C4 witness: no settings anywhere, one erroring
info candidate followed by a readable info.txt containing Hello. -/
def infoEnv : Env :=
  { bookName := "Book",
    infos := [InfoCand.err "boom", InfoCand.ok "Hello"] }

/-- Image file a.jpg, earlier by order key. -/
def picA : RelPath := { dirs := [], name := "a.jpg" }

/-- Image file b.jpg, later by order key but first in enumeration
order. -/
def picB : RelPath := { dirs := [], name := "b.jpg" }

/-- Whether a node is an element with the given tag. -/
def isTag (t : String) : XNode → Bool
  | XNode.elem tg _ _ => tg == t
  | _ => false

/-- The url attribute of the enclosure child of an item element. -/
def itemEnclosureUrl : XNode → Option String
  | XNode.elem _ _ (_ :: XNode.elem _ attrs _ :: _) =>
    (attrs.find? (fun kv => kv.1 == "url")).map (fun kv => kv.2)
  | _ => none

/-- Whether the enclosure child of an item element carries a type
attribute. -/
def itemHasType : XNode → Bool
  | XNode.elem _ _ (_ :: XNode.elem _ attrs _ :: _) =>
    attrs.any (fun kv => kv.1 == "type")
  | _ => false

/-- The text of the title child of an item element. -/
def itemTitleIn : XNode → Option String
  | XNode.elem _ _ (XNode.elem _ _ [XNode.text s] :: _) => some s
  | _ => none

/-- A pipeline-shaped item for the C7 witness, carrying no explicit
MIME, title or duration. -/
def itW : Item := { path := tr1, rpath := "Book/track1.mp3", url := "/Book/track1.mp3" }

/-- Environment for the C10 witness: an empty-string title in the book
settings. -/
def emptyTitleEnv : Env := { bookName := "Book", book := some [("title", "")] }

/-- Double application of Ordering.swap under Option.map is the
identity. -/
theorem mapSwapSwap (o : Option Ordering) :
    (o.map Ordering.swap).map Ordering.swap = o := by
  cases o with
  | none => rfl
  | some o' => cases o' <;> rfl

/-- Comparison of naturals is antisymmetric under Ordering.swap. -/
theorem natCompareSwap (m n : Nat) : compare n m = (compare m n).swap := by
  rcases Nat.lt_trichotomy m n with h | h | h
  · rw [Nat.compare_eq_lt.mpr h, Nat.compare_eq_gt.mpr h]; rfl
  · subst h; rw [Nat.compare_eq_eq.mpr rfl]; rfl
  · rw [Nat.compare_eq_gt.mpr h, Nat.compare_eq_lt.mpr h]; rfl

/-- Equal elements may also be substituted on the right of a good
comparison. -/
theorem CmpGood.eqr {α : Type} {cmp : α → α → Option Ordering} (h : CmpGood cmp)
    {b c : α} (hbc : cmp b c = some Ordering.eq) (a : α) : cmp a b = cmp a c := by
  have hcb : cmp c b = some Ordering.eq := by rw [h.swap b c, hbc]; rfl
  calc cmp a b = (cmp b a).map Ordering.swap := by rw [h.swap a b, mapSwapSwap]
    _ = (cmp c a).map Ordering.swap := by rw [h.eql c b hcb a]
    _ = cmp a c := by rw [h.swap a c, mapSwapSwap]

/-- Reflexivity lifts through lexicographic comparison. -/
theorem lexRefl {α : Type} {cmp : α → α → Option Ordering}
    (h : ∀ a, cmp a a = some Ordering.eq) :
    ∀ l, lexCmpO cmp l l = some Ordering.eq := by
  intro l
  induction l with
  | nil => rfl
  | cons a as ih => simp [lexCmpO, h a, ih]

/-- Swap antisymmetry lifts through lexicographic comparison. -/
theorem lexSwap {α : Type} {cmp : α → α → Option Ordering}
    (h : ∀ a b, cmp b a = (cmp a b).map Ordering.swap) :
    ∀ l m, lexCmpO cmp m l = (lexCmpO cmp l m).map Ordering.swap := by
  intro l
  induction l with
  | nil =>
    intro m
    cases m with
    | nil => rfl
    | cons b bs => rfl
  | cons a as ih =>
    intro m
    cases m with
    | nil => rfl
    | cons b bs =>
      rcases h2 : cmp a b with _ | o
      · simp [lexCmpO, h a b, h2]
      · cases o <;> simp [lexCmpO, h a b, h2, ih bs, Ordering.swap]

/-- Substitution of lexicographically equal sequences. -/
theorem lexEql {α : Type} {cmp : α → α → Option Ordering}
    (h : ∀ a b, cmp a b = some Ordering.eq → ∀ c, cmp a c = cmp b c) :
    ∀ l m, lexCmpO cmp l m = some Ordering.eq →
      ∀ k, lexCmpO cmp l k = lexCmpO cmp m k := by
  intro l
  induction l with
  | nil =>
    intro m hm k
    cases m with
    | nil => rfl
    | cons b bs => simp [lexCmpO] at hm
  | cons a as ih =>
    intro m hm k
    cases m with
    | nil => simp [lexCmpO] at hm
    | cons b bs =>
      rcases h2 : cmp a b with _ | o
      · rw [lexCmpO, h2] at hm; exact absurd hm (by simp)
      · cases o with
        | lt => rw [lexCmpO, h2] at hm; exact absurd hm (by simp)
        | gt => rw [lexCmpO, h2] at hm; exact absurd hm (by simp)
        | eq =>
          rw [lexCmpO, h2] at hm
          cases k with
          | nil => rfl
          | cons c cs =>
            have hac : cmp a c = cmp b c := h a b h2 c
            rw [lexCmpO, lexCmpO, hac]
            rcases h3 : cmp b c with _ | o'
            · rfl
            · cases o' with
              | lt => rfl
              | gt => rfl
              | eq => exact ih bs hm cs

/-- Transitivity of strict verdicts lifts through lexicographic
comparison. -/
theorem lexTrans {α : Type} {cmp : α → α → Option Ordering} (hg : CmpGood cmp) :
    ∀ l m k, lexCmpO cmp l m = some Ordering.lt →
      lexCmpO cmp m k = some Ordering.lt → lexCmpO cmp l k = some Ordering.lt := by
  intro l
  induction l with
  | nil =>
    intro m k h1 h2
    cases m with
    | nil => simp [lexCmpO] at h1
    | cons b bs =>
      cases k with
      | nil => simp [lexCmpO] at h2
      | cons c cs => rfl
  | cons a as ih =>
    intro m k h1 h2
    cases m with
    | nil => simp [lexCmpO] at h1
    | cons b bs =>
      cases k with
      | nil => simp [lexCmpO] at h2
      | cons c cs =>
        rcases hab : cmp a b with _ | o <;> rw [lexCmpO, hab] at h1
        · exact absurd h1 (by simp)
        · cases o with
          | gt => exact absurd h1 (by simp)
          | lt =>
            rcases hbc : cmp b c with _ | o' <;> rw [lexCmpO, hbc] at h2
            · exact absurd h2 (by simp)
            · cases o' with
              | gt => exact absurd h2 (by simp)
              | lt => rw [lexCmpO, hg.trans a b c hab hbc]
              | eq => rw [lexCmpO, (hg.eqr hbc a).symm, hab]
          | eq =>
            rcases hbc : cmp b c with _ | o' <;> rw [lexCmpO, hbc] at h2
            · exact absurd h2 (by simp)
            · cases o' with
              | gt => exact absurd h2 (by simp)
              | lt => rw [lexCmpO, hg.eql a b hab c, hbc]
              | eq =>
                rw [lexCmpO, hg.eql a b hab c, hbc]
                exact ih bs cs h1 h2

/-- Goodness lifts through lexicographic comparison. -/
theorem CmpGood.lex {α : Type} {cmp : α → α → Option Ordering} (h : CmpGood cmp) :
    CmpGood (lexCmpO cmp) :=
  ⟨lexRefl h.refl, lexSwap h.swap, lexEql h.eql, lexTrans h⟩

/-- Character comparison by code point is a good comparison. -/
theorem cmpChGood : CmpGood cmpCh := by
  constructor
  · intro a; simp [cmpCh, Nat.compare_eq_eq.mpr rfl]
  · intro a b; simp [cmpCh, natCompareSwap b.toNat a.toNat]
  · intro a b hab c
    simp only [cmpCh, Option.some.injEq] at hab
    rw [cmpCh, cmpCh, Nat.compare_eq_eq.mp hab]
  · intro a b c hab hbc
    simp only [cmpCh, Option.some.injEq] at hab hbc
    simp [cmpCh, Nat.compare_eq_lt.mpr
      (Nat.lt_trans (Nat.compare_eq_lt.mp hab) (Nat.compare_eq_lt.mp hbc))]

/-- Chunk comparison is a good comparison: int against int and str
against str are totally ordered, and the undefined mixed verdicts still
respect swap, substitution and transitivity. -/
theorem cmpChunkGood : CmpGood cmpChunk := by
  constructor
  · intro a
    cases a with
    | num n => simp [cmpChunk, Nat.compare_eq_eq.mpr rfl]
    | str s => simpa [cmpChunk] using lexRefl cmpChGood.refl s
  · intro a b
    cases a with
    | num m =>
      cases b with
      | num n => simp [cmpChunk, natCompareSwap m n]
      | str t => rfl
    | str s =>
      cases b with
      | num n => rfl
      | str t => simpa [cmpChunk] using lexSwap cmpChGood.swap s t
  · intro a b hab c
    cases a with
    | num m =>
      cases b with
      | num n =>
        simp only [cmpChunk, Option.some.injEq] at hab
        rw [Nat.compare_eq_eq.mp hab]
      | str t => simp [cmpChunk] at hab
    | str s =>
      cases b with
      | num n => simp [cmpChunk] at hab
      | str t =>
        simp only [cmpChunk] at hab
        cases c with
        | num k => rfl
        | str u => simpa [cmpChunk] using lexEql cmpChGood.eql s t hab u
  · intro a b c hab hbc
    cases a with
    | num m =>
      cases b with
      | str t => exact absurd hab (by simp [cmpChunk])
      | num n =>
        cases c with
        | str u => exact absurd hbc (by simp [cmpChunk])
        | num k =>
          simp only [cmpChunk, Option.some.injEq] at hab hbc ⊢
          exact Nat.compare_eq_lt.mpr
            (Nat.lt_trans (Nat.compare_eq_lt.mp hab) (Nat.compare_eq_lt.mp hbc))
    | str s =>
      cases b with
      | num n => exact absurd hab (by simp [cmpChunk])
      | str t =>
        cases c with
        | num k => exact absurd hbc (by simp [cmpChunk])
        | str u =>
          simp only [cmpChunk] at hab hbc ⊢
          exact lexTrans cmpChGood s t u hab hbc

/-- Segment comparison is good. -/
theorem cmpSegGood : CmpGood cmpSeg := cmpChunkGood.lex

/-- Key comparison is good: on the defined fragment it is a total
preorder with substitutive equality. -/
theorem cmpKeyGood : CmpGood cmpKey := cmpSegGood.lex

/-- Pair comparison (key first, then rendered path) is good. -/
theorem cmpPairGood : CmpGood cmpPair := by
  have hc : CmpGood (lexCmpO cmpCh) := cmpChGood.lex
  constructor
  · intro x
    simp [cmpPair, cmpKeyGood.refl x.1, hc.refl]
  · intro x y
    rcases h : cmpKey x.1 y.1 with _ | o
    · have h2 : cmpKey y.1 x.1 = none := by rw [cmpKeyGood.swap, h]; rfl
      simp [cmpPair, h, h2]
    · have h2 : cmpKey y.1 x.1 = some o.swap := by rw [cmpKeyGood.swap, h]; rfl
      cases o with
      | lt => simp [cmpPair, h, h2, Ordering.swap]
      | gt => simp [cmpPair, h, h2, Ordering.swap]
      | eq =>
        simp [cmpPair, h, h2, Ordering.swap,
          hc.swap (renderRel x.2).data (renderRel y.2).data]
  · intro x y hxy z
    rcases h : cmpKey x.1 y.1 with _ | o <;> rw [cmpPair, h] at hxy
    · exact absurd hxy (by simp)
    · cases o with
      | lt => exact absurd hxy (by simp)
      | gt => exact absurd hxy (by simp)
      | eq =>
        have hs : lexCmpO cmpCh (renderRel x.2).data (renderRel y.2).data =
            some Ordering.eq := hxy
        rw [cmpPair, cmpPair, cmpKeyGood.eql x.1 y.1 h z.1]
        rcases h3 : cmpKey y.1 z.1 with _ | o'
        · rfl
        · cases o' with
          | lt => rfl
          | gt => rfl
          | eq => rw [hc.eql _ _ hs]
  · intro x y z hxy hyz
    rcases h1 : cmpKey x.1 y.1 with _ | o <;> rw [cmpPair, h1] at hxy
    · exact absurd hxy (by simp)
    · cases o with
      | gt => exact absurd hxy (by simp)
      | lt =>
        rcases h2 : cmpKey y.1 z.1 with _ | o' <;> rw [cmpPair, h2] at hyz
        · exact absurd hyz (by simp)
        · cases o' with
          | gt => exact absurd hyz (by simp)
          | lt => rw [cmpPair, cmpKeyGood.trans _ _ _ h1 h2]
          | eq => rw [cmpPair, (cmpKeyGood.eqr h2 x.1).symm, h1]
      | eq =>
        rcases h2 : cmpKey y.1 z.1 with _ | o' <;> rw [cmpPair, h2] at hyz
        · exact absurd hyz (by simp)
        · cases o' with
          | gt => exact absurd hyz (by simp)
          | lt => rw [cmpPair, cmpKeyGood.eql _ _ h1 z.1, h2]
          | eq =>
            rw [cmpPair, cmpKeyGood.eql _ _ h1 z.1, h2]
            exact (cmpChGood.lex).trans _ _ _ hxy hyz

/-- Non-strict verdicts of a good comparison compose. -/
theorem CmpGood.leTrans {α : Type} {cmp : α → α → Option Ordering}
    (h : CmpGood cmp) {a b c : α} (hab : leCmp cmp a b) (hbc : leCmp cmp b c) :
    leCmp cmp a c := by
  rcases hab with hab | hab <;> rcases hbc with hbc | hbc
  · exact Or.inl (h.trans a b c hab hbc)
  · exact Or.inl (by rw [(h.eqr hbc a).symm, hab])
  · exact Or.inl (by rw [h.eql a b hab, hbc])
  · exact Or.inr (by rw [h.eql a b hab, hbc])

/-- A successful insertion returns a permutation of the new element and
the old list. -/
theorem insertCmpPerm {α : Type} {cmp : α → α → Option Ordering} {a : α} :
    ∀ {l l' : List α}, insertCmp cmp a l = some l' → l'.Perm (a :: l) := by
  intro l
  induction l with
  | nil =>
    intro l' h
    simp only [insertCmp, Option.some.injEq] at h
    rw [← h]
  | cons b t ih =>
    intro l' h
    rcases h2 : cmp a b with _ | o <;> rw [insertCmp, h2] at h
    · exact absurd h (by simp)
    · cases o with
      | lt =>
        simp only [Option.some.injEq] at h
        rw [← h]
      | eq =>
        rcases h3 : insertCmp cmp a t with _ | t' <;> rw [h3] at h
        · exact absurd h (by simp)
        · simp only [Option.some.injEq] at h
          rw [← h]
          exact (List.Perm.cons b (ih h3)).trans (List.Perm.swap a b t)
      | gt =>
        rcases h3 : insertCmp cmp a t with _ | t' <;> rw [h3] at h
        · exact absurd h (by simp)
        · simp only [Option.some.injEq] at h
          rw [← h]
          exact (List.Perm.cons b (ih h3)).trans (List.Perm.swap a b t)

/-- A successful insertion into a sorted list is sorted. -/
theorem insertCmpSorted {α : Type} {cmp : α → α → Option Ordering}
    (hg : CmpGood cmp) {a : α} :
    ∀ {l l' : List α}, l.Pairwise (leCmp cmp) → insertCmp cmp a l = some l' →
      l'.Pairwise (leCmp cmp) := by
  intro l
  induction l with
  | nil =>
    intro l' _ h
    simp only [insertCmp, Option.some.injEq] at h
    rw [← h]
    simp
  | cons b t ih =>
    intro l' hs h
    rcases List.pairwise_cons.mp hs with ⟨hb, ht⟩
    rcases h2 : cmp a b with _ | o <;> rw [insertCmp, h2] at h
    · exact absurd h (by simp)
    · cases o with
      | lt =>
        simp only [Option.some.injEq] at h
        rw [← h]
        refine List.pairwise_cons.mpr ⟨?_, hs⟩
        intro x hx
        rcases List.mem_cons.mp hx with hx | hx
        · rw [hx]; exact Or.inl h2
        · exact hg.leTrans (Or.inl h2) (hb x hx)
      | eq =>
        rcases h3 : insertCmp cmp a t with _ | t' <;> rw [h3] at h
        · exact absurd h (by simp)
        · simp only [Option.some.injEq] at h
          rw [← h]
          refine List.pairwise_cons.mpr ⟨?_, ih ht h3⟩
          intro x hx
          rcases List.mem_cons.mp ((insertCmpPerm h3).mem_iff.mp hx) with hx | hx
          · rw [hx]
            exact Or.inr (by rw [hg.swap a b, h2]; rfl)
          · exact hb x hx
      | gt =>
        rcases h3 : insertCmp cmp a t with _ | t' <;> rw [h3] at h
        · exact absurd h (by simp)
        · simp only [Option.some.injEq] at h
          rw [← h]
          refine List.pairwise_cons.mpr ⟨?_, ih ht h3⟩
          intro x hx
          rcases List.mem_cons.mp ((insertCmpPerm h3).mem_iff.mp hx) with hx | hx
          · rw [hx]
            exact Or.inl (by rw [hg.swap a b, h2]; rfl)
          · exact hb x hx

/-- A successful sort fold returns a permutation of the accumulator and
the remaining input. -/
theorem sortAuxPerm {α : Type} {cmp : α → α → Option Ordering} :
    ∀ {l acc r : List α}, sortAux cmp acc l = some r → r.Perm (acc ++ l) := by
  intro l
  induction l with
  | nil =>
    intro acc r h
    simp only [sortAux, Option.some.injEq] at h
    rw [← h, List.append_nil]
  | cons a t ih =>
    intro acc r h
    rcases h2 : insertCmp cmp a acc with _ | acc' <;> rw [sortAux, h2] at h
    · exact absurd h (by simp)
    · exact (ih h).trans (((insertCmpPerm h2).append_right t).trans
        List.perm_middle.symm)

/-- A successful sort fold from a sorted accumulator is sorted. -/
theorem sortAuxSorted {α : Type} {cmp : α → α → Option Ordering}
    (hg : CmpGood cmp) :
    ∀ {l acc r : List α}, acc.Pairwise (leCmp cmp) → sortAux cmp acc l = some r →
      r.Pairwise (leCmp cmp) := by
  intro l
  induction l with
  | nil =>
    intro acc r hs h
    simp only [sortAux, Option.some.injEq] at h
    rw [← h]; exact hs
  | cons a t ih =>
    intro acc r hs h
    rcases h2 : insertCmp cmp a acc with _ | acc' <;> rw [sortAux, h2] at h
    · exact absurd h (by simp)
    · exact ih (insertCmpSorted hg hs h2) h

/-- A successful sort returns a permutation of its input. -/
theorem sortCmpPerm {α : Type} {cmp : α → α → Option Ordering} {l r : List α}
    (h : sortCmp cmp l = some r) : r.Perm l :=
  by simpa using sortAuxPerm h

/-- A successful sort under a good comparison is sorted. -/
theorem sortCmpSorted {α : Type} {cmp : α → α → Option Ordering}
    (hg : CmpGood cmp) {l r : List α} (h : sortCmp cmp l = some r) :
    r.Pairwise (leCmp cmp) :=
  sortAuxSorted hg (by simp) h

/-- Looking up the key just assigned returns the assigned value. -/
theorem sgetSsetSelf (s : Settings) (k v : String) :
    sget (sset s k v) k = some v := by
  induction s with
  | nil => simp [sset, sget]
  | cons kv t ih =>
    rcases kv with ⟨k', v'⟩
    by_cases h : k' = k
    · subst h; simp [sset, sget]
    · simp [sset, sget, h, ih]

/-- Assignment leaves other keys untouched. -/
theorem sgetSsetNe (s : Settings) {k k' : String} (v : String) (h : k ≠ k') :
    sget (sset s k v) k' = sget s k' := by
  induction s with
  | nil => simp [sset, sget, h]
  | cons kv t ih =>
    rcases kv with ⟨k'', v''⟩
    by_cases h2 : k'' = k
    · subst h2; simp [sset, sget, h]
    · simp [sset, sget, h2, ih]

/-- The guarded write leaves other keys untouched. -/
theorem sgetSetIfNe (s : Settings) {k k' : String} (v : Option String)
    (h : k ≠ k') : sget (setIf s k v) k' = sget s k' := by
  cases v with
  | none => rfl
  | some x =>
    by_cases h2 : x = ""
    · simp [setIf, h2]
    · simp [setIf, h2, sgetSsetNe s x h]

/-- The guarded write of a truthy value is observable at its key. -/
theorem sgetSetIfTruthy (s : Settings) (k : String) {v : Option String}
    (h : truthy v = true) : sget (setIf s k v) k = v := by
  cases v with
  | none => simp [truthy] at h
  | some x =>
    have hx : ¬ x = "" := by simpa [truthy] using h
    simp [setIf, hx, sgetSsetSelf]

/-- The description loop settles on the first successful candidate. -/
theorem descrLoopFst (l : List InfoCand) : (descrLoop l).1 = firstOkText l := by
  induction l with
  | nil => rfl
  | cons c rest ih => cases c <;> simp [descrLoop, firstOkText, ih]

/-- The description loop reports exactly the errors met before the first
successful candidate. -/
theorem descrLoopSnd (l : List InfoCand) : (descrLoop l).2 = errsBeforeOk l := by
  induction l with
  | nil => rfl
  | cons c rest ih =>
    cases c <;>
      simp [descrLoop, errsBeforeOk, isOkCand, errMsgOf, List.takeWhile, ih]

/-- The loop finds no text exactly when no candidate succeeds. -/
theorem firstOkTextNone (l : List InfoCand) :
    firstOkText l = none ↔ ∀ c ∈ l, isOkCand c = false := by
  induction l with
  | nil => simp [firstOkText]
  | cons c rest ih => cases c <;> simp [firstOkText, isOkCand, ih]

/-- A path rendered relative to the library root is never the empty
string (it contains the separating slash). -/
theorem renderLibNe (n : String) (p : RelPath) : renderLib n p ≠ "" := by
  intro h
  have h2 := congrArg String.data h
  simp only [renderLib, String.data_append] at h2
  have h3 := congrArg List.length h2
  simp [List.length_append] at h3

/-- A truthy or-chain: when the left side is truthy the chain returns
it, otherwise the right side. -/
theorem pyOrTruthy {a : Option String} (b : Option String)
    (h : truthy a = true) : pyOr a b = a := by
  simp [pyOr, h]

/-- A falsy left side drops out of an or-chain. -/
theorem pyOrFalsy {a : Option String} (b : Option String)
    (h : truthy a = false) : pyOr a b = b := by
  simp [pyOr, h]

/-- An empty-string left operand behaves exactly like an absent one
under Python or. -/
theorem pyOrEmpty (b : Option String) : pyOr (some "") b = pyOr none b := rfl

/-- Homogeneous character lists form a single maximal run. -/
theorem splitRunsAll (b : Bool) : ∀ cs : List Char, cs ≠ [] →
    (∀ c ∈ cs, c.isDigit = b) → splitRuns cs = [cs] := by
  intro cs
  induction cs with
  | nil => intro h; exact absurd rfl h
  | cons c cs' ih =>
    intro _ hall
    cases cs' with
    | nil => rfl
    | cons d ds =>
      have h2 : splitRuns (d :: ds) = [d :: ds] :=
        ih (by simp) (fun x hx => hall x (List.mem_cons_of_mem c hx))
      show (match splitRuns (d :: ds) with
        | [] => [[c]]
        | [] :: rs => [c] :: [] :: rs
        | (e :: es) :: rs =>
          if c.isDigit == e.isDigit then (c :: e :: es) :: rs
          else [c] :: (e :: es) :: rs) = [c :: d :: ds]
      rw [h2]
      simp [hall c (by simp), hall d (by simp)]

/-- A nonempty all-digit name tokenizes to a single int chunk carrying
its exact decimal value. -/
theorem pySplitDigits (cs : List Char) (h1 : cs ≠ [])
    (h2 : ∀ c ∈ cs, c.isDigit = true) :
    pySplit cs = [Chunk.num (digitsToNat cs)] := by
  rw [pySplit, splitRunsAll true cs h1 h2]
  have hall : cs.all (·.isDigit) = true := List.all_eq_true.mpr h2
  have hne : cs.isEmpty = false := by
    cases cs with
    | nil => exact absurd rfl h1
    | cons => rfl
  simp [chunkOf, hall, hne]

/-- A nonempty digit-free name tokenizes to a single verbatim str
chunk. -/
theorem pySplitText (cs : List Char) (h1 : cs ≠ [])
    (h2 : ∀ c ∈ cs, c.isDigit = false) :
    pySplit cs = [Chunk.str cs] := by
  rw [pySplit, splitRunsAll false cs h1 h2]
  have hall : cs.all (·.isDigit) = false := by
    cases cs with
    | nil => exact absurd rfl h1
    | cons c cs' => simp [List.all_cons, h2 c (by simp)]
  simp [chunkOf, hall]

/-- Verdicts of a pair comparison project to verdicts on the keys. -/
theorem lePairKey {a b : Key × RelPath} (h : leCmp cmpPair a b) :
    cmpKey a.1 b.1 = some Ordering.lt ∨ cmpKey a.1 b.1 = some Ordering.eq := by
  rcases h with h | h <;>
    rcases h2 : cmpKey a.1 b.1 with _ | o <;>
      rw [cmpPair, h2] at h
  · exact absurd h (by simp)
  · cases o with
    | lt => exact Or.inl rfl
    | eq => exact Or.inr rfl
    | gt => exact absurd h (by simp)
  · exact absurd h (by simp)
  · cases o with
    | lt => exact absurd h (by simp)
    | eq => exact Or.inr rfl
    | gt => exact absurd h (by simp)

/-- C1 (amended): on the defined fragment the key comparison behaves as
a total order: it is reflexive with an equality verdict, antisymmetric
under swapping the operands, and transitive in its strict verdicts, so
exactly one of less, equal, greater holds whenever the comparison is
defined at all; comparing a numeric chunk to a text chunk, however, is
undefined (Python raises TypeError) rather than falling back to a fixed
type-order, so sorting keyed paths can fail. -/
theorem filename_key_order_laws (p q r : RelPath) :
    cmpKey (filename_key p) (filename_key p) = some Ordering.eq ∧
    cmpKey (filename_key q) (filename_key p) =
      (cmpKey (filename_key p) (filename_key q)).map Ordering.swap ∧
    (cmpKey (filename_key p) (filename_key q) = some Ordering.lt →
      cmpKey (filename_key q) (filename_key r) = some Ordering.lt →
      cmpKey (filename_key p) (filename_key r) = some Ordering.lt) :=
  ⟨cmpKeyGood.refl _, cmpKeyGood.swap _ _, cmpKeyGood.trans _ _ _⟩

/-- Witness for the amended C1 at the running example. -/
theorem filename_key_order_laws_witness :
    cmpKey (filename_key tr1) (filename_key tr10) = some Ordering.lt :=
  (filename_key_order_laws tr1 tr2 tr10).2.2 (by decide) (by decide)

/-- Counterexample to C1 as stated: the keys of 1.mp3 and a.mp3 put an
int chunk against a str chunk, the comparison is undefined (TypeError),
none of less, equal, greater holds, and sorting a list with both files
fails, so a whole run dies. -/
theorem filename_key_not_total :
    cmpKey (filename_key { dirs := [], name := "1.mp3" })
      (filename_key { dirs := [], name := "a.mp3" }) = none ∧
    sortCmp cmpPair
      [(filename_key { dirs := [], name := "1.mp3" },
          ({ dirs := [], name := "1.mp3" } : RelPath)),
        (filename_key { dirs := [], name := "a.mp3" },
          ({ dirs := [], name := "a.mp3" } : RelPath))] = none ∧
    (mainResolve {} (trackEnv [{ dirs := [], name := "1.mp3" },
      { dirs := [], name := "a.mp3" }])).isSome = false := by
  decide

/-- C8 (amended): maximal digit runs become numeric chunks carrying
their exact unbounded decimal value (the witness value exceeds 128 bits,
so no machine-word overflow), and maximal non-digit runs become text
chunks kept verbatim, compared case-sensitively by code point, so two
paths differing only in letter case compare unequal (upper case before
lower case), not equal. -/
theorem filename_key_chunk_values (cs : List Char) :
    (cs ≠ [] → (∀ c ∈ cs, c.isDigit = true) →
      pySplit cs = [Chunk.num (digitsToNat cs)]) ∧
    (cs ≠ [] → (∀ c ∈ cs, c.isDigit = false) → pySplit cs = [Chunk.str cs]) ∧
    filename_key
        { dirs := [], name := "track340282366920938463463374607431768211456.mp3" } =
      [[Chunk.str "track".data, Chunk.num 340282366920938463463374607431768211456,
        Chunk.str ".mp3".data]] ∧
    cmpKey (filename_key { dirs := [], name := "Track1.mp3" })
      (filename_key { dirs := [], name := "track1.mp3" }) = some Ordering.lt :=
  ⟨pySplitDigits cs, pySplitText cs, by decide, by decide⟩

/-- Witness for the amended C8 on a concrete digit run and text run. -/
theorem filename_key_chunk_values_witness :
    pySplit "0042".data = [Chunk.num 42] ∧ pySplit "abc".data = [Chunk.str "abc".data] :=
  ⟨(filename_key_chunk_values "0042".data).1 (by decide) (by decide),
    (filename_key_chunk_values "abc".data).2.1 (by decide) (by decide)⟩

/-- Counterexample to C8 as stated: two paths differing only in letter
case produce different keys that do not compare equal, because the
tokenizer never case-normalizes the text chunks. -/
theorem filename_key_not_case_insensitive :
    filename_key { dirs := [], name := "Track1.mp3" } ≠
      filename_key { dirs := [], name := "track1.mp3" } ∧
    cmpKey (filename_key { dirs := [], name := "Track1.mp3" })
      (filename_key { dirs := [], name := "track1.mp3" }) ≠ some Ordering.eq := by
  decide

/-- C2: a successful sort of the keyed media files is a permutation of
them that is sorted by the order keys of the paths relative to the book
directory; in particular the running example track1, track2, track10
comes out in numeric order from every one of the six possible
filesystem enumeration orders. -/
theorem episodes_sorted_by_key :
    (∀ (l r : List (Key × RelPath)), sortCmp cmpPair l = some r →
      r.Perm l ∧ r.Pairwise (fun a b => cmpKey a.1 b.1 = some Ordering.lt ∨
        cmpKey a.1 b.1 = some Ordering.eq)) ∧
    ((mainResolve {} (trackEnv [tr1, tr2, tr10])).map rpathsOf =
        some ["Book/track1.mp3", "Book/track2.mp3", "Book/track10.mp3"] ∧
      (mainResolve {} (trackEnv [tr1, tr10, tr2])).map rpathsOf =
        some ["Book/track1.mp3", "Book/track2.mp3", "Book/track10.mp3"] ∧
      (mainResolve {} (trackEnv [tr2, tr1, tr10])).map rpathsOf =
        some ["Book/track1.mp3", "Book/track2.mp3", "Book/track10.mp3"] ∧
      (mainResolve {} (trackEnv [tr2, tr10, tr1])).map rpathsOf =
        some ["Book/track1.mp3", "Book/track2.mp3", "Book/track10.mp3"] ∧
      (mainResolve {} (trackEnv [tr10, tr1, tr2])).map rpathsOf =
        some ["Book/track1.mp3", "Book/track2.mp3", "Book/track10.mp3"] ∧
      (mainResolve {} (trackEnv [tr10, tr2, tr1])).map rpathsOf =
        some ["Book/track1.mp3", "Book/track2.mp3", "Book/track10.mp3"]) := by
  constructor
  · intro l r h
    exact ⟨sortCmpPerm h,
      (sortCmpSorted cmpPairGood h).imp (fun hab => lePairKey hab)⟩
  · decide

/-- Witness for C2 at the running example in one concrete enumeration
order. -/
theorem episodes_sorted_by_key_witness :
    ([(filename_key tr1, tr1), (filename_key tr2, tr2), (filename_key tr10, tr10)].Perm
        [(filename_key tr2, tr2), (filename_key tr10, tr10), (filename_key tr1, tr1)] ∧
      [(filename_key tr1, tr1), (filename_key tr2, tr2),
        (filename_key tr10, tr10)].Pairwise
        (fun a b => cmpKey a.1 b.1 = some Ordering.lt ∨
          cmpKey a.1 b.1 = some Ordering.eq)) :=
  episodes_sorted_by_key.1
    [(filename_key tr2, tr2), (filename_key tr10, tr10), (filename_key tr1, tr1)]
    [(filename_key tr1, tr1), (filename_key tr2, tr2), (filename_key tr10, tr10)]
    (by decide)

/-- Field projections of a successful run, read off the record main
builds. -/
theorem mainResolveFields {cli : CliArgs} {env : Env} {out : MainOut}
    (h : mainResolve cli env = some out) :
    out.url = resolvedUrl cli env ∧ out.lang = resolvedLang cli env ∧
    out.author = resolvedAuthor cli env ∧ out.description = resolvedDescr cli env ∧
    out.descrLog = descrDiag cli env ∧ out.image = resolvedImage cli env ∧
    out.feedTitleOut = feedTitle cli env ∧ out.settingsOut = settingsB cli env ∧
    out.bookOut = bookC cli env ∧
    out.localSaved =
      (if cli.save_local_settings then some (settingsB cli env) else none) ∧
    (∃ srt, sortCmp cmpPair (keyedFiles env) = some srt ∧
      out.items = srt.map
        (fun kp => mkItem (urlBase (resolvedUrl cli env)) env.bookName kp.2)) ∧
    out.rssUrl = (if cli.rss == "" then none
      else some (urlBase (resolvedUrl cli env) ++ "/" ++
        pyQuote (env.bookName ++ "/" ++ cli.rss))) := by
  rw [mainResolve] at h
  rcases hs : sortCmp cmpPair (keyedFiles env) with _ | srt <;> rw [hs] at h
  · exact absurd h (by simp)
  · simp only [Option.some.injEq] at h
    rw [← h]
    exact ⟨rfl, rfl, rfl, rfl, rfl, rfl, rfl, rfl, rfl, rfl, ⟨srt, rfl, rfl⟩, rfl⟩

/-- C3: with a truthy CLI url B over a library setting url A, the
resolved url is B, B is written back into the library settings mapping,
and a run with the persist flag saves exactly that mapping, so the
persisted library settings carry url B. -/
theorem url_cli_wins_and_persists (cli : CliArgs) (env : Env) (A B : String)
    (hcli : cli.url = some B) (hB : B ≠ "")
    (hA : sget (loadLocal cli env) "url" = some A) :
    resolvedUrl cli env = some B ∧
    sget (settingsB cli env) "url" = some B ∧
    (∀ out, mainResolve cli env = some out → out.url = some B ∧
      (cli.save_local_settings = true → out.localSaved = some (settingsB cli env))) := by
  have htr : truthy (some B) = true := by simp [truthy, hB]
  have h1 : resolvedUrl cli env = some B := by
    rw [resolvedUrl, hcli, pyOrTruthy _ htr]
  have h2 : sget (settingsB cli env) "url" = some B := by
    rw [settingsB, sgetSetIfNe _ _ (by decide), settingsA,
      sgetSetIfTruthy _ _ (by rw [h1]; exact htr), h1]
  refine ⟨h1, h2, ?_⟩
  intro out hout
  have hf := mainResolveFields hout
  refine ⟨by rw [hf.1, h1], ?_⟩
  intro hsave
  rw [hf.2.2.2.2.2.2.2.2.2.1, hsave]
  simp

/-- Witness for C3 at concrete A and B. -/
theorem url_cli_wins_and_persists_witness :
    resolvedUrl urlCli urlEnv = some "B" ∧
    sget (settingsB urlCli urlEnv) "url" = some "B" :=
  ⟨(url_cli_wins_and_persists urlCli urlEnv "A" "B" rfl (by decide) (by decide)).1,
    (url_cli_wins_and_persists urlCli urlEnv "A" "B" rfl (by decide) (by decide)).2.1⟩

/-- The title and author write-backs do not disturb the description and
about keys of the book settings. -/
theorem bookBDescrKeys (cli : CliArgs) (env : Env) :
    sget (bookB cli env) "description" = sget (bookDoc env) "description" ∧
    sget (bookB cli env) "about" = sget (bookDoc env) "about" := by
  constructor
  · rw [bookB, sgetSetIfNe _ _ (by decide), bookA, sgetSetIfNe _ _ (by decide)]
  · rw [bookB, sgetSetIfNe _ _ (by decide), bookA, sgetSetIfNe _ _ (by decide)]

/-- C4: the description resolves through the chain CLI value, book
settings description, book settings about, then the first successful
info-file candidate; an erroring candidate only contributes a diagnostic
and the loop moves on, and the description stays absent exactly when the
whole chain is falsy and every candidate fails. -/
theorem descr_fallback_chain (cli : CliArgs) (env : Env) :
    (truthy cli.description = true → resolvedDescr cli env = cli.description) ∧
    (truthy cli.description = false →
      truthy (sget (bookDoc env) "description") = true →
      resolvedDescr cli env = sget (bookDoc env) "description") ∧
    (truthy cli.description = false →
      truthy (sget (bookDoc env) "description") = false →
      truthy (sget (bookDoc env) "about") = true →
      resolvedDescr cli env = sget (bookDoc env) "about") ∧
    (truthy cli.description = false →
      truthy (sget (bookDoc env) "description") = false →
      truthy (sget (bookDoc env) "about") = false →
      (∀ t, firstOkText env.infos = some t → resolvedDescr cli env = some t) ∧
      (firstOkText env.infos = none → truthy (resolvedDescr cli env) = false) ∧
      ((∀ c ∈ env.infos, isOkCand c = false) →
        truthy (resolvedDescr cli env) = false)) ∧
    descrDiag cli env =
      (if truthy (resolvedDescr0 cli env) then [] else errsBeforeOk env.infos) ∧
    (∀ out, mainResolve cli env = some out →
      out.description = resolvedDescr cli env ∧ out.descrLog = descrDiag cli env) := by
  obtain ⟨hbd, hba⟩ := bookBDescrKeys cli env
  refine ⟨?_, ?_, ?_, ?_, ?_, ?_⟩
  · intro h
    have h0 : resolvedDescr0 cli env = cli.description := by
      rw [resolvedDescr0, pyOrTruthy _ h, pyOrTruthy _ h]
    have ht : truthy (resolvedDescr0 cli env) = true := by rw [h0]; exact h
    simp [resolvedDescr, ht, h0, h]
  · intro hc hd
    have h0 : resolvedDescr0 cli env = sget (bookDoc env) "description" := by
      rw [resolvedDescr0, hbd, pyOrFalsy _ hc, pyOrTruthy _ hd]
    have ht : truthy (resolvedDescr0 cli env) = true := by rw [h0]; exact hd
    simp [resolvedDescr, ht, h0, hd]
  · intro hc hd ha
    have h0 : resolvedDescr0 cli env = sget (bookDoc env) "about" := by
      rw [resolvedDescr0, hbd, hba, pyOrFalsy _ hc, pyOrFalsy _ hd]
    have ht : truthy (resolvedDescr0 cli env) = true := by rw [h0]; exact ha
    simp [resolvedDescr, ht, h0, ha]
  · intro hc hd ha
    have h0 : resolvedDescr0 cli env = sget (bookDoc env) "about" := by
      rw [resolvedDescr0, hbd, hba, pyOrFalsy _ hc, pyOrFalsy _ hd]
    have ht : truthy (resolvedDescr0 cli env) = false := by rw [h0]; exact ha
    refine ⟨?_, ?_, ?_⟩
    · intro t hfo
      simp [resolvedDescr, ht, descrLoopFst, hfo]
    · intro hfo
      simp [resolvedDescr, ht, descrLoopFst, hfo]
    · intro hall
      simp [resolvedDescr, ht, descrLoopFst, (firstOkTextNone env.infos).mpr hall]
  · rw [descrDiag, descrLoopSnd]
  · intro out hout
    have hf := mainResolveFields hout
    exact ⟨hf.2.2.2.1, hf.2.2.2.2.1⟩

/-- Witness for C4: with the whole settings chain absent the description
comes from the first readable candidate, the error before it only
yielding a diagnostic. -/
theorem descr_fallback_chain_witness :
    resolvedDescr ({} : CliArgs) infoEnv = some "Hello" ∧
    descrDiag ({} : CliArgs) infoEnv = ["boom"] :=
  ⟨((descr_fallback_chain {} infoEnv).2.2.2.1 (by decide) (by decide)
      (by decide)).1 "Hello" (by decide),
    by rw [(descr_fallback_chain {} infoEnv).2.2.2.2.1]; decide⟩

/-- C5 (amended): with no CLI image the resolved image is the first
image file in discovery enumeration order (not the first by OrderKey, so
the choice is deterministic only for a fixed enumeration), rendered
relative to the library root and glued to the base URL unless the value
starts with http, in which case it is kept unchanged; the Alice example
resolves as the spec shows. -/
theorem image_first_enumerated (cli : CliArgs) (env : Env) :
    (truthy cli.image = true → startsHttp (cli.image.getD "") = true →
      resolvedImage cli env = cli.image) ∧
    (truthy cli.image = true → startsHttp (cli.image.getD "") = false →
      resolvedImage cli env =
        some (urlBase (resolvedUrl cli env) ++ "/" ++ cli.image.getD "")) ∧
    (truthy cli.image = false → ∀ p rest, env.pics = p :: rest →
      resolvedImage cli env =
        some (if startsHttp (renderLib env.bookName p) then renderLib env.bookName p
          else urlBase (resolvedUrl cli env) ++ "/" ++ renderLib env.bookName p)) ∧
    (truthy cli.image = false → env.pics = [] → resolvedImage cli env = cli.image) ∧
    resolvedImage { url := some "http://x/lib" }
        { bookName := "Alice", pics := [{ dirs := [], name := "cover.jpg" }] } =
      some "http://x/lib/Alice/cover.jpg" := by
  refine ⟨?_, ?_, ?_, ?_, by decide⟩
  · intro h hs
    have hcand : imageCandidate cli env = cli.image := by
      simp [imageCandidate, h]
    simp [resolvedImage, hcand, h, hs]
  · intro h hs
    have hcand : imageCandidate cli env = cli.image := by
      simp [imageCandidate, h]
    simp [resolvedImage, hcand, h, hs]
  · intro h p rest hp
    have hcand : imageCandidate cli env = some (renderLib env.bookName p) := by
      simp [imageCandidate, h, hp]
    have hne : truthy (some (renderLib env.bookName p)) = true := by
      simp [truthy, renderLibNe env.bookName p]
    rw [resolvedImage, hcand]
    simp only [hne, if_true, Option.getD_some]
    split <;> simp
  · intro h hp
    have hcand : imageCandidate cli env = cli.image := by
      simp [imageCandidate, h, hp]
    simp [resolvedImage, hcand, h]

/-- Witness for the amended C5: two images enumerated b.jpg before
a.jpg; the code picks b.jpg. -/
theorem image_first_enumerated_witness :
    resolvedImage { url := some "http://x/lib" }
        { bookName := "Alice", pics := [picB, picA] } =
      some "http://x/lib/Alice/b.jpg" := by
  rw [(image_first_enumerated { url := some "http://x/lib" }
    { bookName := "Alice", pics := [picB, picA] }).2.2.1 (by decide) picB [picA] rfl]
  decide

/-- Counterexample to C5 as stated: a.jpg is first by OrderKey, yet the
code resolves the image from b.jpg, the first image in enumeration
order, so the choice is not by OrderKey. -/
theorem image_not_by_orderkey :
    specFirstImageByKey [picB, picA] = some picA ∧
    resolvedImage { url := some "http://x/lib" }
        { bookName := "Alice", pics := [picB, picA] } =
      some "http://x/lib/Alice/b.jpg" ∧
    urlBase (some "http://x/lib") ++ "/" ++ renderLib "Alice" picA ≠
      "http://x/lib/Alice/b.jpg" := by
  decide

/-- C6 (amended): settings come from exactly two fixed levels, the book
directory and its immediate parent: the run reads only the first
ancestor document, so replacing every deeper ancestor changes nothing,
and the immediate parent document is taken as the whole library
settings without any merge. -/
theorem settings_two_fixed_levels (cli : CliArgs) (env : Env)
    (a : Option Settings) (rest rest' : List (Option Settings)) :
    mainResolve cli { env with ancestors := a :: rest } =
      mainResolve cli { env with ancestors := a :: rest' } ∧
    loadLocal cli { env with ancestors := a :: rest } =
      (if cli.no_local_settings then [] else a.getD []) := by
  constructor
  · rfl
  · rfl

/-- Counterexample to C6 as stated: a grandparent document provides url
G and the spec-modelled ancestor walk finds it, but the code resolves no
url at all because it consults only the immediate parent, which has no
document. -/
theorem settings_no_ancestor_walk :
    sget (specCascade [none, some [("url", "G")]]) "url" = some "G" ∧
    (mainResolve {}
        { bookName := "Book", ancestors := [none, some [("url", "G")]] }).map
        (fun o => o.url) = some none := by
  decide

/-- The enclosure of a built item node carries exactly the item url. -/
theorem itemEnclosureUrlNode (it : Item) :
    itemEnclosureUrl (itemNode it) = some it.url := by
  cases h : truthy (itemMime it) <;> cases h2 : truthy it.duration <;>
    simp [itemNode, itemEnclosureUrl, enclosureAttrs, h, h2, List.find?]

/-- A built item node carries a type attribute exactly when the MIME
value is truthy. -/
theorem itemHasTypeNode (it : Item) :
    itemHasType (itemNode it) = truthy (itemMime it) := by
  cases h : truthy (itemMime it) <;> cases h2 : truthy it.duration <;>
    simp [itemNode, itemHasType, enclosureAttrs, h, h2, List.any]

/-- The title of a built item node is the item title text. -/
theorem itemTitleInNode (it : Item) :
    itemTitleIn (itemNode it) = some (itemTitleText it) := by
  cases h2 : truthy it.duration <;> simp [itemNode, itemTitleIn, h2]

/-- The title text of an item is its own title when truthy, else the
file base name. -/
theorem itemTitleTextEq (it : Item) :
    itemTitleText it =
      (if truthy it.ititle then it.ititle.getD "" else it.path.name) := by
  rcases h : it.ititle with _ | s
  · simp [itemTitleText, pyOr, truthy, h]
  · by_cases hs : s = "" <;> simp [itemTitleText, pyOr, truthy, h, hs]

/-- Built item nodes survive the item filter unchanged. -/
theorem filterItemNodes (its : List Item) :
    (its.map itemNode).filter (isTag "item") = its.map itemNode := by
  induction its with
  | nil => rfl
  | cons it rest ih => simp [itemNode, isTag, ih]

/-- An optional field node of another tag never passes a tag filter. -/
theorem filterOptNode (qt tag : String) (v : Option String)
    (h : (tag == qt) = false) : (optNode tag v).filter (isTag qt) = [] := by
  cases hv : truthy v <;> simp [optNode, hv, isTag, h]

/-- The image pair of channel nodes contributes nothing under a filter
for another tag. -/
theorem filterImageNodes (qt : String) (im : Option String)
    (h1 : ("googleplay:image" == qt) = false) (h2 : ("image" == qt) = false) :
    ((if truthy im then
      [XNode.elem "googleplay:image" [("href", im.getD "")] [],
        XNode.elem "image" [] [XNode.elem "url" [] [XNode.text (im.getD "")]]]
    else []) : List XNode).filter (isTag qt) = [] := by
  cases hv : truthy im <;> simp [hv, isTag, h1, h2]

/-- An optional field node of another tag counts zero under a tag
count. -/
theorem countOptNode (qt tag : String) (v : Option String)
    (h : (tag == qt) = false) : (optNode tag v).countP (isTag qt) = 0 := by
  cases hv : truthy v <;> simp [optNode, hv, isTag, h]

/-- Item nodes count zero under a count for a non-item tag. -/
theorem countItemNodes (qt : String) (h : ("item" == qt) = false)
    (its : List Item) : (its.map itemNode).countP (isTag qt) = 0 := by
  induction its with
  | nil => rfl
  | cons it rest ih => simp [itemNode, isTag, h, ih, List.countP_cons]

/-- The image pair counts zero under a count for other tags. -/
theorem countImageNodes (qt : String) (im : Option String)
    (h1 : ("googleplay:image" == qt) = false) (h2 : ("image" == qt) = false) :
    ((if truthy im then
      [XNode.elem "googleplay:image" [("href", im.getD "")] [],
        XNode.elem "image" [] [XNode.elem "url" [] [XNode.text (im.getD "")]]]
    else []) : List XNode).countP (isTag qt) = 0 := by
  cases hv : truthy im <;> simp [hv, isTag, h1, h2, List.countP_cons]

/-- Every entry of the MIME table has a nonempty value. -/
theorem mtValuesTruthy : ∀ kv ∈ media_types, kv.2 ≠ "" := by decide

/-- For the fixed MIME table, a truthy lookup and a successful lookup
coincide. -/
theorem mtLookupTruthy (e : String) : truthy (mtLookup e) = (mtLookup e).isSome := by
  rcases h2 : List.find? (fun kv => kv.1 == e) media_types with _ | kv
  · simp [mtLookup, h2, truthy]
  · have hmem := List.mem_of_find?_eq_some h2
    have hne := mtValuesTruthy kv hmem
    simp [mtLookup, h2, truthy, hne]

/-- An absent optional field contributes no node at all. -/
theorem optNodeNone (tag : String) : optNode tag none = [] := rfl

/-- C7: the channel carries no node for an absent optional field, one
item element per episode in the exact sequence order (their enclosure
urls reproduce the item urls in order), each item title falling back to
the file base name when the item has none, and the enclosure type
attribute present exactly when a MIME type is found for the file
extension (for items that carry no explicit MIME value, as the pipeline
builds them). -/
theorem make_rss_shape (its : List Item) (t a d im lg lk : Option String)
    (hm : ∀ it ∈ its, it.mime = none) :
    (t = none → (channelNodes its t a d im lg lk).countP (isTag "title") = 0) ∧
    (a = none →
      (channelNodes its t a d im lg lk).countP (isTag "googleplay:author") = 0) ∧
    (d = none →
      (channelNodes its t a d im lg lk).countP (isTag "description") = 0) ∧
    (im = none →
      (channelNodes its t a d im lg lk).countP (isTag "googleplay:image") = 0 ∧
      (channelNodes its t a d im lg lk).countP (isTag "image") = 0) ∧
    (lg = none → (channelNodes its t a d im lg lk).countP (isTag "language") = 0) ∧
    (lk = none → (channelNodes its t a d im lg lk).countP (isTag "link") = 0) ∧
    ((channelNodes its t a d im lg lk).filter (isTag "item")).map itemEnclosureUrl =
      its.map (fun it => some it.url) ∧
    ((channelNodes its t a d im lg lk).filter (isTag "item")).map itemTitleIn =
      its.map (fun it =>
        some (if truthy it.ititle then it.ititle.getD "" else it.path.name)) ∧
    ((channelNodes its t a d im lg lk).filter (isTag "item")).map itemHasType =
      its.map (fun it => (mtLookup (extOf it)).isSome) := by
  have hfil : (channelNodes its t a d im lg lk).filter (isTag "item") =
      its.map itemNode := by
    simp [channelNodes, List.filter_append,
      filterOptNode "item" "title" t (by decide),
      filterOptNode "item" "googleplay:author" a (by decide),
      filterOptNode "item" "description" d (by decide),
      filterOptNode "item" "language" lg (by decide),
      filterOptNode "item" "link" lk (by decide),
      filterImageNodes "item" im (by decide) (by decide),
      filterItemNodes]
  refine ⟨?_, ?_, ?_, ?_, ?_, ?_, ?_, ?_, ?_⟩
  · intro h; subst h
    simp [channelNodes, List.countP_append, optNodeNone, truthy,
      countOptNode "title" "googleplay:author" a (by decide),
      countOptNode "title" "description" d (by decide),
      countOptNode "title" "language" lg (by decide),
      countOptNode "title" "link" lk (by decide),
      countImageNodes "title" im (by decide) (by decide),
      countItemNodes "title" (by decide) its]
    rintro x _ (rfl | rfl) <;> rfl
  · intro h; subst h
    simp [channelNodes, List.countP_append, optNodeNone, truthy,
      countOptNode "googleplay:author" "title" t (by decide),
      countOptNode "googleplay:author" "description" d (by decide),
      countOptNode "googleplay:author" "language" lg (by decide),
      countOptNode "googleplay:author" "link" lk (by decide),
      countImageNodes "googleplay:author" im (by decide) (by decide),
      countItemNodes "googleplay:author" (by decide) its]
    rintro x _ (rfl | rfl) <;> rfl
  · intro h; subst h
    simp [channelNodes, List.countP_append, optNodeNone, truthy,
      countOptNode "description" "title" t (by decide),
      countOptNode "description" "googleplay:author" a (by decide),
      countOptNode "description" "language" lg (by decide),
      countOptNode "description" "link" lk (by decide),
      countImageNodes "description" im (by decide) (by decide),
      countItemNodes "description" (by decide) its]
    rintro x _ (rfl | rfl) <;> rfl
  · intro h; subst h
    constructor
    · simp [channelNodes, List.countP_append, optNodeNone, truthy,
        countOptNode "googleplay:image" "title" t (by decide),
        countOptNode "googleplay:image" "googleplay:author" a (by decide),
        countOptNode "googleplay:image" "description" d (by decide),
        countOptNode "googleplay:image" "language" lg (by decide),
        countOptNode "googleplay:image" "link" lk (by decide),
        countItemNodes "googleplay:image" (by decide) its]
    · simp [channelNodes, List.countP_append, optNodeNone, truthy,
        countOptNode "image" "title" t (by decide),
        countOptNode "image" "googleplay:author" a (by decide),
        countOptNode "image" "description" d (by decide),
        countOptNode "image" "language" lg (by decide),
        countOptNode "image" "link" lk (by decide),
        countItemNodes "image" (by decide) its]
  · intro h; subst h
    simp [channelNodes, List.countP_append, optNodeNone, truthy,
      countOptNode "language" "title" t (by decide),
      countOptNode "language" "googleplay:author" a (by decide),
      countOptNode "language" "description" d (by decide),
      countOptNode "language" "link" lk (by decide),
      countImageNodes "language" im (by decide) (by decide),
      countItemNodes "language" (by decide) its]
    rintro x _ (rfl | rfl) <;> rfl
  · intro h; subst h
    simp [channelNodes, List.countP_append, optNodeNone, truthy,
      countOptNode "link" "title" t (by decide),
      countOptNode "link" "googleplay:author" a (by decide),
      countOptNode "link" "description" d (by decide),
      countOptNode "link" "language" lg (by decide),
      countImageNodes "link" im (by decide) (by decide),
      countItemNodes "link" (by decide) its]
    rintro x _ (rfl | rfl) <;> rfl
  · rw [hfil, List.map_map]
    refine List.map_congr_left ?_
    intro it _
    simpa using itemEnclosureUrlNode it
  · rw [hfil, List.map_map]
    refine List.map_congr_left ?_
    intro it _
    have := itemTitleInNode it
    rw [itemTitleTextEq] at this
    simpa using this
  · rw [hfil, List.map_map]
    refine List.map_congr_left ?_
    intro it hit
    have h1 : itemMime it = mtLookup (extOf it) := by
      rw [itemMime, hm it hit]; rfl
    have := itemHasTypeNode it
    rw [h1, mtLookupTruthy] at this
    simpa using this

/-- Witness for C7 on a one-episode channel with only a title set. -/
theorem make_rss_shape_witness :
    ((channelNodes [itW] (some "T") none none none none none).filter
        (isTag "item")).map itemEnclosureUrl = [some "/Book/track1.mp3"] :=
  (make_rss_shape [itW] (some "T") none none none none none
    (by decide)).2.2.2.2.2.2.1

/-- C9 (amended): with a falsy resolved base URL the URL prefix is
empty, so every episode URL and the reported feed URL degrade to a
root-relative path, a slash followed by the percent-encoded path
relative to the library root, and the run does not fail on that account;
the feed title falls back to the book directory base name when the
CLI-and-settings title chain is falsy, and is nonempty whenever that
base name is nonempty (for the filesystem root the base name, and hence
the fallback title, is empty). -/
theorem missing_url_degrades (cli : CliArgs) (env : Env) :
    (truthy (resolvedUrl cli env) = false → urlBase (resolvedUrl cli env) = "") ∧
    (∀ out, mainResolve cli env = some out →
      (truthy (resolvedUrl cli env) = false →
        (∀ it ∈ out.items, it.url = "/" ++ pyQuote it.rpath) ∧
        (cli.rss ≠ "" →
          out.rssUrl = some ("/" ++ pyQuote (env.bookName ++ "/" ++ cli.rss)))) ∧
      out.feedTitleOut = pyOr (resolvedTitle cli env) (some env.bookName) ∧
      (truthy (resolvedTitle cli env) = false →
        out.feedTitleOut = some env.bookName) ∧
      (env.bookName ≠ "" → truthy out.feedTitleOut = true)) := by
  have hub : truthy (resolvedUrl cli env) = false →
      urlBase (resolvedUrl cli env) = "" := by
    intro h; simp [urlBase, h]
  refine ⟨hub, ?_⟩
  intro out hout
  have hf := mainResolveFields hout
  obtain ⟨srt, hsrt, hitems⟩ := hf.2.2.2.2.2.2.2.2.2.2.1
  have hft : out.feedTitleOut = pyOr (resolvedTitle cli env) (some env.bookName) :=
    hf.2.2.2.2.2.2.1
  refine ⟨?_, hft, ?_, ?_⟩
  · intro hu
    constructor
    · intro it hit
      rw [hitems] at hit
      obtain ⟨kp, _, hkp⟩ := List.mem_map.mp hit
      rw [← hkp]
      simp only [mkItem, hub hu]
      rw [show ("" : String) ++ "/" = "/" from rfl]
    · intro hr
      rw [hf.2.2.2.2.2.2.2.2.2.2.2]
      have hrb : (cli.rss == "") = false := beq_eq_false_iff_ne.mpr hr
      rw [hrb, hub hu]
      simp
  · intro ht
    rw [hft, pyOrFalsy _ ht]
  · intro hb
    rcases ht : truthy (resolvedTitle cli env) with _ | _
    · rw [hft, pyOrFalsy _ ht]
      simp [truthy, hb]
    · rw [hft, pyOrTruthy _ ht]
      exact ht

/-- Witness for the amended C9: no url anywhere, one track, book name
Book; the URL prefix is empty and the feed title falls back to Book. -/
theorem missing_url_degrades_witness :
    urlBase (resolvedUrl ({} : CliArgs) (trackEnv [tr1])) = "" ∧
    ((mainResolve ({} : CliArgs) (trackEnv [tr1])).get (by decide)).feedTitleOut =
      some "Book" :=
  ⟨(missing_url_degrades {} (trackEnv [tr1])).1 (by decide),
    (((missing_url_degrades {} (trackEnv [tr1])).2 _
      (Option.some_get (by decide)).symm).2.2.1 (by decide))⟩

/-- Counterexample to C9 as stated: for a book directory whose base name
is empty (the filesystem root), the title chain falls back to that empty
base name and the resolved feed title is the empty string, so it is not
never-empty. -/
theorem title_empty_at_root :
    (mainResolve {} { bookName := "" }).map (fun o => o.feedTitleOut) =
      some (some "") := by
  decide

/-- C10: precedence is decided by truthiness, not presence: an
empty-string CLI value for url, lang, title, author or description makes
the whole run indistinguishable from one with the option absent (so it
neither wins nor is written back), an empty-string settings title is
overridden by the directory-name fallback, and an empty-string
feed-level field produces no node among the channel children. -/
theorem truthiness_precedence (cli : CliArgs) (env : Env) (its : List Item)
    (a d im lg lk : Option String) :
    mainResolve { cli with url := some "" } env =
      mainResolve { cli with url := none } env ∧
    mainResolve { cli with lang := some "" } env =
      mainResolve { cli with lang := none } env ∧
    mainResolve { cli with title := some "" } env =
      mainResolve { cli with title := none } env ∧
    mainResolve { cli with author := some "" } env =
      mainResolve { cli with author := none } env ∧
    mainResolve { cli with description := some "" } env =
      mainResolve { cli with description := none } env ∧
    (cli.title = none → sget (bookDoc env) "title" = some "" →
      feedTitle cli env = some env.bookName) ∧
    channelNodes its (some "") a d im lg lk =
      channelNodes its none a d im lg lk := by
  refine ⟨?_, ?_, ?_, ?_, ?_, ?_, ?_⟩
  · simp only [mainResolve, keyedFiles, mkItem, resolvedUrl, settingsA, resolvedLang,
      settingsB, resolvedTitle, bookA, resolvedAuthor, bookB, resolvedDescr0, bookC,
      imageCandidate, resolvedImage, resolvedDescr, descrDiag, feedTitle, loadLocal,
      bookDoc, pyOrEmpty]
  · simp only [mainResolve, keyedFiles, mkItem, resolvedUrl, settingsA, resolvedLang,
      settingsB, resolvedTitle, bookA, resolvedAuthor, bookB, resolvedDescr0, bookC,
      imageCandidate, resolvedImage, resolvedDescr, descrDiag, feedTitle, loadLocal,
      bookDoc, pyOrEmpty]
  · simp only [mainResolve, keyedFiles, mkItem, resolvedUrl, settingsA, resolvedLang,
      settingsB, resolvedTitle, bookA, resolvedAuthor, bookB, resolvedDescr0, bookC,
      imageCandidate, resolvedImage, resolvedDescr, descrDiag, feedTitle, loadLocal,
      bookDoc, pyOrEmpty]
  · simp only [mainResolve, keyedFiles, mkItem, resolvedUrl, settingsA, resolvedLang,
      settingsB, resolvedTitle, bookA, resolvedAuthor, bookB, resolvedDescr0, bookC,
      imageCandidate, resolvedImage, resolvedDescr, descrDiag, feedTitle, loadLocal,
      bookDoc, pyOrEmpty]
  · simp only [mainResolve, keyedFiles, mkItem, resolvedUrl, settingsA, resolvedLang,
      settingsB, resolvedTitle, bookA, resolvedAuthor, bookB, resolvedDescr0, bookC,
      imageCandidate, resolvedImage, resolvedDescr, descrDiag, feedTitle, loadLocal,
      bookDoc, pyOrEmpty]
  · intro h1 h2
    simp [feedTitle, resolvedTitle, h1, h2, pyOr, truthy]
  · simp [channelNodes, optNode, truthy]

/-- Witness for C10: the empty settings title is overridden by the
directory-name fallback. -/
theorem truthiness_precedence_witness :
    feedTitle ({} : CliArgs) emptyTitleEnv = some "Book" :=
  (truthiness_precedence {} emptyTitleEnv [] none none none none
    none).2.2.2.2.2.1 rfl (by decide)

